import Mathlib

/-!
Verification of the ETL/analytics pipeline of the repository
"From-Messy-Chats-to-Clean-Insights".

The development shallowly embeds the Python sources:
  * `src/scripts/load_raw_to_postgres.py` (raw loader),
  * `src/scripts/run_yolo_enrichment.py` (image enrichment),
  * `src/analytics_api/{main,crud}.py`   (reporting HTTP API),
  * `src/repo.py`                        (Dagster orchestration),
as executable Lean definitions and proves the specified properties about them.

The PostgreSQL store is modelled by an explicit transaction state
(`TxState`): a list of committed rows plus a list of rows inserted in the
open transaction.  `INSERT ... ON CONFLICT (key) DO NOTHING` becomes
`insertIfAbsent`, which also returns the `cur.rowcount` (did a row get
inserted).  Floating-point payloads (YOLO confidences, bounding boxes) are
carried opaquely as strings: the scripts never compute with them, they only
move them from the model output into the store.

String primitives of the scripts (`str.endswith`, `str.lower`, regexp
whitespace split, `int(...)` parsing) are given small executable models over
`List Char` so that all definitions evaluate by kernel reduction.
-/

namespace MessyChats

/-! ### String helpers (executable models of the Python/SQL string primitives) -/

/-- Python `s.endswith(suffix)` / the `.json` filename filter: suffix test on
the character list. -/
def strEndsWith (s suffix : String) : Bool :=
  suffix.data.isSuffixOf s.data

/-- Python `s.lower()` / SQL `lower(s)`: character-wise lowercasing. -/
def lowerStr (s : String) : String :=
  ⟨s.data.map Char.toLower⟩

/-- Splitting a character list at every whitespace character.  This models
the SQL regexp split of the query on whitespace runs: the only difference is that a run of
whitespace produces empty tokens here, and those are discarded by the
`length(word) > 3` filter downstream. -/
def splitChars : List Char → List (List Char)
  | [] => [[]]
  | c :: rest =>
    let r := splitChars rest
    if c.isWhitespace then [] :: r
    else
      match r with
      | [] => [[c]]
      | w :: ws => (c :: w) :: ws

/-- Python `os.path.splitext(name)[0]`: everything before the last dot, or
the whole name when it has no dot.  (Hidden files with a leading dot do not
occur in the image tree layout `<message_id>.jpg` and are not modelled.) -/
def stemOf (name : String) : String :=
  if name.data.contains '.' then
    ⟨((name.data.reverse.dropWhile (fun c => c ≠ '.')).drop 1).reverse⟩
  else name

/-- Auxiliary digit-list parser for `parseNat`. -/
def natOfCharsAux : List Char → Nat → Option Nat
  | [], acc => some acc
  | c :: rest, acc =>
    if c.isDigit then natOfCharsAux rest (acc * 10 + (c.toNat - 48)) else none

/-- Python `int(s)` on the decimal digit strings produced by the image file
layout `<message_id>.jpg`; any non-digit character raises, modelled as
`none`. -/
def parseNat (s : String) : Option Nat :=
  match s.data with
  | [] => none
  | cs => natOfCharsAux cs 0

/-! ### The persistent store: transaction state and conflict-ignoring insert -/

/-- One PostgreSQL connection and its view of one table: the committed rows plus the
rows inserted in the currently open transaction. -/
structure TxState (ρ : Type) where
  committed : List ρ
  pending : List ρ
deriving DecidableEq

/-- The rows visible inside the transaction (committed plus pending). -/
def txRows {ρ : Type} (st : TxState ρ) : List ρ :=
  st.committed ++ st.pending

/-- Model of `INSERT ... ON CONFLICT (key) DO NOTHING`: insert `r` unless a visible
row with the same natural key exists; the returned `Bool` is the
`cur.rowcount > 0`. -/
def insertIfAbsent {ρ κ : Type} [DecidableEq κ] (key : ρ → κ) (st : TxState ρ)
    (r : ρ) : TxState ρ × Bool :=
  if key r ∈ (txRows st).map key then (st, false)
  else ({ st with pending := st.pending ++ [r] }, true)

/-- Model of `conn.commit()`: make the pending rows durable. -/
def commitTx {ρ : Type} (st : TxState ρ) : TxState ρ :=
  ⟨st.committed ++ st.pending, []⟩

/-- Model of `conn.rollback()`: discard the pending rows. -/
def rollbackTx {ρ : Type} (st : TxState ρ) : TxState ρ :=
  ⟨st.committed, []⟩

/-- Model of `SELECT * FROM t WHERE key = k LIMIT 1` over a row list: first row with
the given key. -/
def lookupByKey {ρ κ : Type} [DecidableEq κ] (key : ρ → κ) (l : List ρ)
    (k : κ) : Option ρ :=
  l.find? (fun x => decide (key x = k))

/-- One SQL statement issued against a connection, used to model the order
of the database calls made by the loader (claim about commit placement). -/
inductive DbAction (ρ : Type)
  | insert (row : ρ)
  | commit
  | rollback
deriving DecidableEq

/-- Interpreter for one `DbAction` over the transaction state. -/
def applyAction {ρ κ : Type} [DecidableEq κ] (key : ρ → κ) (st : TxState ρ) :
    DbAction ρ → TxState ρ
  | .insert r => (insertIfAbsent key st r).1
  | .commit => commitTx st
  | .rollback => rollbackTx st

/-- Interpreter for a sequence of `DbAction`s. -/
def applyActions {ρ κ : Type} [DecidableEq κ] (key : ρ → κ) (st : TxState ρ)
    (acts : List (DbAction ρ)) : TxState ρ :=
  acts.foldl (applyAction key) st

/-- Recognizer for insert actions. -/
def isInsertAction {ρ : Type} : DbAction ρ → Bool
  | .insert _ => true
  | _ => false

/-- Number of `COMMIT`s in a statement sequence. -/
def commitCount {ρ : Type} (acts : List (DbAction ρ)) : Nat :=
  acts.countP (fun a => match a with | .commit => true | _ => false)

/-! ### Raw loader (`src/scripts/load_raw_to_postgres.py`) -/

/-- What `json.load` and the two `data.get` calls yield for one file:
either a `json.JSONDecodeError`, or a parsed document with its optional
`id`, optional `peer_id.channel_id`, and the re-serialized payload
(`json.dumps(data)`, modelled as an opaque string). -/
inductive FileContent
  | malformed
  | json (messageId : Option Nat) (channelId : Option Nat) (payload : String)
deriving DecidableEq

/-- One file met by the `os.walk` over `data/raw/telegram_messages`:
`name` is the `filename` entry, `path` is `os.path.join(root, filename)`. -/
structure SrcFile where
  path : String
  name : String
  content : FileContent
deriving DecidableEq

/-- A row of `raw.messages` (the `id SERIAL` and `loaded_at` columns are
store-generated and carry no load-time information, so they are omitted). -/
structure RawMessage where
  message_id : Nat
  channel_id : Option Nat
  raw_data : String
  file_path : String
deriving DecidableEq

/-- The in-flight state of the loader: the connection plus the counters and the
log lines of `process_and_load_data`. -/
structure LoaderState where
  tx : TxState RawMessage
  loaded_count : Nat
  skipped_count : Nat
  errors : List String
  warnings : List String
deriving DecidableEq

/-- The file paths visible to the unique-key check of the loader insert. -/
def txPaths (st : TxState RawMessage) : List String :=
  (txRows st).map RawMessage.file_path

/-- The body of the loader walk for one file: skip non-`.json` names, log
and continue on a JSON decode error, warn and continue on a falsy message id
(Python `if not message_id`, i.e. absent or `0`), otherwise attempt the
conflict-ignoring insert and count it as loaded or skipped by `rowcount`. -/
def process_file (s : LoaderState) (f : SrcFile) : LoaderState :=
  if strEndsWith f.name ".json" then
    match f.content with
    | FileContent.malformed =>
      { s with errors := s.errors ++ ["Could not decode JSON from file: " ++ f.path] }
    | FileContent.json mid ch payload =>
      if mid.getD 0 = 0 then
        { s with warnings := s.warnings ++ ["Skipping file without a message ID: " ++ f.path] }
      else if (insertIfAbsent RawMessage.file_path s.tx ⟨mid.getD 0, ch, payload, f.path⟩).2 then
        { s with tx := (insertIfAbsent RawMessage.file_path s.tx ⟨mid.getD 0, ch, payload, f.path⟩).1,
                 loaded_count := s.loaded_count + 1 }
      else
        { s with tx := (insertIfAbsent RawMessage.file_path s.tx ⟨mid.getD 0, ch, payload, f.path⟩).1,
                 skipped_count := s.skipped_count + 1 }
  else s

/-- The result of one `process_and_load_data` run: the committed table after
the final `conn.commit()` plus counters and logs. -/
structure LoaderResult where
  db : List RawMessage
  loaded_count : Nat
  skipped_count : Nat
  errors : List String
  warnings : List String
deriving DecidableEq

/-- Model of `process_and_load_data(conn)`: walk all files, process each, and commit
once at the very end. -/
def process_and_load_data (db0 : List RawMessage) (files : List SrcFile) :
    LoaderResult :=
  let s := files.foldl process_file ⟨⟨db0, []⟩, 0, 0, [], []⟩
  ⟨txRows s.tx, s.loaded_count, s.skipped_count, s.errors, s.warnings⟩

/-- A file the loader actually inserts: a `.json` name whose content decodes
and carries a non-falsy message id. -/
def isLoadableFile (f : SrcFile) : Bool :=
  strEndsWith f.name ".json" &&
    (match f.content with
     | FileContent.json mid _ _ => decide (mid.getD 0 ≠ 0)
     | _ => false)

/-- A file whose processing logs a decode error: a `.json` name with
malformed content. -/
def isMalformedJsonFile (f : SrcFile) : Bool :=
  strEndsWith f.name ".json" &&
    (match f.content with
     | FileContent.malformed => true
     | _ => false)

/-- A file whose content fails JSON decoding, regardless of its name. -/
def isMalformedContent (f : SrcFile) : Bool :=
  match f.content with
  | FileContent.malformed => true
  | _ => false

/-- The SQL statements one file causes (the loader performs no pre-check, so
this does not depend on the store): one conflict-ignoring insert for a
loadable file, nothing otherwise. -/
def loaderFileActions (f : SrcFile) : List (DbAction RawMessage) :=
  if strEndsWith f.name ".json" then
    match f.content with
    | FileContent.malformed => []
    | FileContent.json mid ch payload =>
      if mid.getD 0 = 0 then []
      else [DbAction.insert ⟨mid.getD 0, ch, payload, f.path⟩]
  else []

/-- The full statement sequence of one loader run: the per-file inserts of
the whole walk followed by the single final `conn.commit()`. -/
def loaderActions (files : List SrcFile) : List (DbAction RawMessage) :=
  (files.map loaderFileActions).flatten ++ [DbAction.commit]

/-! ### Image enrichment (`src/scripts/run_yolo_enrichment.py`) -/

/-- One detection produced by the YOLO model for an image: the class name
(`names[int(box.cls[0])]`), the confidence (`float(box.conf[0])`) and the
bounding box (`json.dumps(box.xyxy[0].tolist())`).  Confidence and box are
floating-point payloads the script only forwards, carried as strings. -/
structure Detection where
  className : String
  confidence : String
  bbox : String
deriving DecidableEq

/-- A row of `raw_enrichment.image_detections` (again without the
store-generated `id` and `loaded_at`). -/
structure DetectionRow where
  message_id : Nat
  image_path : String
  detected_object_class : String
  confidence_score : String
  bounding_box : String
deriving DecidableEq

/-- The natural key of the detections table:
`UNIQUE(image_path, detected_object_class, bounding_box)`. -/
def detKey (r : DetectionRow) : String × String × String :=
  (r.image_path, r.detected_object_class, r.bounding_box)

/-- One file met by the `os.walk` over `data/raw/images`. -/
structure ImgFile where
  path : String
  name : String
deriving DecidableEq

/-- The image filename filter: lowercased name ends with .png, .jpg or .jpeg. -/
def isImageName (name : String) : Bool :=
  strEndsWith (lowerStr name) ".png" || strEndsWith (lowerStr name) ".jpg" ||
    strEndsWith (lowerStr name) ".jpeg"

/-- What the environment does for one attempted image: the model (or the
database driver) raises before any insert, raises after `k` insert
statements succeeded, or the whole item succeeds with the returned
detections. -/
inductive ImgOutcome
  | modelError
  | insertError (dets : List Detection) (k : Nat)
  | ok (dets : List Detection)

/-- Model of `get_processed_images(conn)`:
`SELECT DISTINCT image_path FROM raw_enrichment.image_detections`. -/
def get_processed_images (rows : List DetectionRow) : List String :=
  (rows.map DetectionRow.image_path).dedup

/-- The in-flight state of the enrichment loop.  `processed_this_run` records the
images on which work was started this run (the `Processing new image` log
line, i.e. the model invocations). -/
structure EnrichState where
  tx : TxState DetectionRow
  processed_images : List String
  new_detections_count : Nat
  processed_this_run : List String
  errors : List String

/-- The row built for one detection of one image. -/
def rowOfDet (mid : Nat) (path : String) (d : Detection) : DetectionRow :=
  ⟨mid, path, d.className, d.confidence, d.bbox⟩

/-- The insert loop over the detections of one image, accumulating
`cur.rowcount` into the new-detections counter. -/
def insertDets : TxState DetectionRow → List DetectionRow → TxState DetectionRow × Nat
  | tx, [] => (tx, 0)
  | tx, r :: rest =>
    ((insertDets (insertIfAbsent detKey tx r).1 rest).1,
      (if (insertIfAbsent detKey tx r).2 then 1 else 0) +
        (insertDets (insertIfAbsent detKey tx r).1 rest).2)

/-- The body of the enrichment walk for one file: skip non-image names and
images already in the processed set; otherwise parse the message id from the
filename stem, run the model, insert every detection, commit and mark the
image processed — any exception on the item is caught, logged and answered
with `conn.rollback()`. -/
def enrichStep (env : String → ImgOutcome) (s : EnrichState) (img : ImgFile) :
    EnrichState :=
  if isImageName img.name then
    if img.path ∈ s.processed_images then s
    else
      match parseNat (stemOf img.name) with
      | none =>
        { s with tx := rollbackTx s.tx,
                 processed_this_run := s.processed_this_run ++ [img.path],
                 errors := s.errors ++ ["Failed to process image " ++ img.path] }
      | some mid =>
        match env img.path with
        | ImgOutcome.modelError =>
          { s with tx := rollbackTx s.tx,
                   processed_this_run := s.processed_this_run ++ [img.path],
                   errors := s.errors ++ ["Failed to process image " ++ img.path] }
        | ImgOutcome.insertError dets k =>
          { s with
              tx := rollbackTx
                (insertDets s.tx ((dets.take k).map (rowOfDet mid img.path))).1,
              new_detections_count := s.new_detections_count +
                (insertDets s.tx ((dets.take k).map (rowOfDet mid img.path))).2,
              processed_this_run := s.processed_this_run ++ [img.path],
              errors := s.errors ++ ["Failed to process image " ++ img.path] }
        | ImgOutcome.ok dets =>
          { s with
              tx := commitTx (insertDets s.tx (dets.map (rowOfDet mid img.path))).1,
              new_detections_count := s.new_detections_count +
                (insertDets s.tx (dets.map (rowOfDet mid img.path))).2,
              processed_images := s.processed_images ++ [img.path],
              processed_this_run := s.processed_this_run ++ [img.path] }
  else s

/-- The observable result of one `run_enrichment` run. -/
structure EnrichResult where
  committed : List DetectionRow
  new_detections_count : Nat
  processed_this_run : List String
  errors : List String

/-- Model of `run_enrichment(conn)`: read the processed-image set from the store once,
then walk the image tree; each successful item commits its own inserts, each
failed item rolls back. -/
def run_enrichment (db0 : List DetectionRow) (images : List ImgFile)
    (env : String → ImgOutcome) : EnrichResult :=
  let s := images.foldl (enrichStep env) ⟨⟨db0, []⟩, get_processed_images db0, 0, [], []⟩
  ⟨s.tx.committed, s.new_detections_count, s.processed_this_run, s.errors⟩

/-- The per-item attempt fails: the filename stem is not a decimal message
id, or the environment raises on this item (before or during the inserts). -/
def imgAttemptFails (img : ImgFile) (env : String → ImgOutcome) : Bool :=
  match parseNat (stemOf img.name) with
  | none => true
  | some _ =>
    match env img.path with
    | ImgOutcome.ok _ => false
    | _ => true

/-! ### Reporting API (`src/analytics_api/crud.py` and `main.py`) -/

/-- A row of the warehouse fact table `fct_messages`, as the four queried
columns.  `message_posted_at` is a timestamp, modelled as seconds; the SQL
`date(...)` projection becomes the day index `t / 86400`. -/
structure FctMessage where
  message_id : Nat
  message_text : Option String
  channel_id : Nat
  message_posted_at : Nat
deriving DecidableEq

/-- SQL `date(message_posted_at)`: the calendar day of a timestamp. -/
def dateOf (t : Nat) : Nat := t / 86400

/-- Executable substring containment on character lists: does `l₁` occur
contiguously inside `l₂`. -/
def infixOfChars (l₁ l₂ : List Char) : Bool :=
  l₂.tails.any (fun t => l₁.isPrefixOf t)

/-- The SQL ILIKE pattern match of the search query: case-insensitive substring match; a
NULL text never matches. -/
def ilikeMatch (text : Option String) (query : String) : Bool :=
  match text with
  | none => false
  | some t => infixOfChars (lowerStr query).data (lowerStr t).data

/-- Descending-count comparison used by the `ORDER BY 2 DESC` reports. -/
def byCountDesc {α : Type} (a b : α × Nat) : Prop := b.2 ≤ a.2

instance {α : Type} : DecidableRel (@byCountDesc α) :=
  fun a b => Nat.decLe b.2 a.2

instance {α : Type} : IsTotal (α × Nat) byCountDesc :=
  ⟨fun a b => Nat.le_total b.2 a.2⟩

instance {α : Type} : IsTrans (α × Nat) byCountDesc :=
  ⟨fun _ _ _ h1 h2 => Nat.le_trans h2 h1⟩

/-- Newest-first comparison of `ORDER BY message_posted_at DESC`. -/
def byPostedDesc (a b : FctMessage) : Prop :=
  b.message_posted_at ≤ a.message_posted_at

instance : DecidableRel byPostedDesc :=
  fun a b => Nat.decLe b.message_posted_at a.message_posted_at

instance : IsTotal FctMessage byPostedDesc :=
  ⟨fun a b => Nat.le_total b.message_posted_at a.message_posted_at⟩

instance : IsTrans FctMessage byPostedDesc :=
  ⟨fun _ _ _ h1 h2 => Nat.le_trans h2 h1⟩

/-- Ascending comparison of the activity report ordering on dates. -/
def byDateAsc {α : Type} (a b : Nat × α) : Prop := a.1 ≤ b.1

instance {α : Type} : DecidableRel (@byDateAsc α) :=
  fun a b => Nat.decLe a.1 b.1

instance {α : Type} : IsTotal (Nat × α) byDateAsc :=
  ⟨fun a b => Nat.le_total a.1 b.1⟩

instance {α : Type} : IsTrans (Nat × α) byDateAsc :=
  ⟨fun _ _ _ h1 h2 => Nat.le_trans h1 h2⟩

/-- Model of `crud.search_messages`: rows whose text matches the ILIKE pattern,
newest first, capped at `limit` (the crud default for `limit` is 100, an
explicit argument here). -/
def search_messages (db : List FctMessage) (query : String) (limit : Nat) :
    List FctMessage :=
  (List.insertionSort byPostedDesc
    (db.filter (fun m => ilikeMatch m.message_text query))).take limit

/-- The fixed stopword list of the top-products query. -/
def stopwords : List String :=
  ["and", "the", "for", "with", "http", "https", "t.me"]

/-- Model of `lower(message_text)` split on whitespace: the `words` CTE for one row. -/
def tokenize (text : String) : List String :=
  (splitChars (lowerStr text).data).map (fun cs => ⟨cs⟩)

/-- The `WHERE length(word) > 3 AND word NOT IN (...)` filter of the
top-products query (the words are already lowercased by `tokenize`). -/
def keepWord (w : String) : Bool :=
  decide (3 < w.length) && decide (w ∉ stopwords)

/-- All words of all non-NULL message texts (the unnested `words` CTE). -/
def wordsOf (msgs : List (Option String)) : List String :=
  ((msgs.filterMap id).map tokenize).flatten

/-- Model of `crud.get_top_products`: filter the words, group and count them, order
by count descending and cap at `limit` (default 10 at the endpoint). -/
def get_top_products (msgs : List (Option String)) (limit : Nat) :
    List (String × Nat) :=
  let ws := (wordsOf msgs).filter keepWord
  (List.insertionSort byCountDesc
    (ws.dedup.map (fun w => (w, ws.count w)))).take limit

/-- A row of the warehouse table `fct_image_detections`, as the two queried
columns. -/
structure FctImageDetection where
  detection_id : Nat
  detected_object_class : String
deriving DecidableEq

/-- Model of `crud.get_top_detected_objects`: group by class, count, order by count
descending and cap at `limit`. -/
def get_top_detected_objects (db : List FctImageDetection) (limit : Nat) :
    List (String × Nat) :=
  let cls := db.map FctImageDetection.detected_object_class
  (List.insertionSort byCountDesc
    (cls.dedup.map (fun c => (c, cls.count c)))).take limit

/-- Model of `crud.get_channel_activity`: daily post counts of one channel, grouped
by calendar date, ordered by date ascending. -/
def get_channel_activity (db : List FctMessage) (channel_id : Nat) :
    List (Nat × Nat) :=
  let ms := db.filter (fun m => decide (m.channel_id = channel_id))
  let dates := (ms.map (fun m => dateOf m.message_posted_at)).dedup
  List.insertionSort byDateAsc
    (dates.map (fun d =>
      (d, (ms.filter (fun m => decide (dateOf m.message_posted_at = d))).length)))

/-- Model of `crud.get_channel_id_by_name`: point lookup in `dim_channels`
(`LIMIT 1`, so the first matching row). -/
def get_channel_id_by_name (dim_channels : List (String × Nat))
    (channel_name : String) : Option Nat :=
  (dim_channels.find? (fun r => decide (r.1 = channel_name))).map Prod.snd

/-- A FastAPI `HTTPException` as the endpoint raises it. -/
structure ApiError where
  status_code : Nat
  detail : String
deriving DecidableEq

/-- Endpoint `GET /api/channels/(channel_name)/activity`: resolve the name; a miss
raises a 404 echoing the name, a hit returns the activity report. -/
def get_channel_activity_report (channels : List (String × Nat))
    (db : List FctMessage) (channel_name : String) :
    Except ApiError (List (Nat × Nat)) :=
  match get_channel_id_by_name channels channel_name with
  | none =>
    Except.error ⟨404, "Channel \x27" ++ channel_name ++ "\x27 not found."⟩
  | some cid => Except.ok (get_channel_activity db cid)

/-- One declared handler parameter of a FastAPI endpoint (the injected
`db: Session = Depends(get_db)` is not a request parameter). -/
structure EndpointParam where
  param : String
  has_default : Bool
deriving DecidableEq

/-- From `main.py`: `def search_for_messages(query: str, db = Depends(...))` —
the handler declares only `query`. -/
def search_for_messages_params : List EndpointParam :=
  [⟨"query", false⟩]

/-- From `main.py`: `def get_top_products_report(limit: int = 10, db = ...)`. -/
def get_top_products_report_params : List EndpointParam :=
  [⟨"limit", true⟩]

/-- From `main.py`: `def get_channel_activity_report(channel_name: str, db = ...)`
— a path parameter, no limit. -/
def get_channel_activity_report_params : List EndpointParam :=
  [⟨"channel_name", false⟩]

/-- From `main.py`: `def get_top_objects_report(limit: int = 10, db = ...)`. -/
def get_top_objects_report_params : List EndpointParam :=
  [⟨"limit", true⟩]

/-- Endpoint `GET /api/search/messages`: the handler calls
`crud.search_messages(db, query=query)`, so the crud default `limit = 100`
is always used. -/
def search_for_messages (db : List FctMessage) (query : String) :
    List FctMessage :=
  search_messages db query 100

/-! ### Orchestration (`src/repo.py`) -/

/-- The four pipeline stages named by the specification. -/
inductive Stage
  | scraper | loader | transform | enrichment
deriving DecidableEq

/-- The exit statuses of the four underlying scripts for one scheduled day
(`subprocess.run(..., check=True)` raises on a non-zero exit). -/
structure ScriptOutcomes where
  scraper_exit : Nat
  loader_exit : Nat
  dbt_exit : Nat
  enrichment_exit : Nat

/-- How one Dagster op ended: it ran and succeeded, it ran and raised, or it
never started because an upstream op failed. -/
inductive OpRun
  | succeeded | failed | skipped
deriving DecidableEq

/-- Op `scrape_telegram_data_op`: run the scraper script; non-zero exit raises. -/
def scrape_telegram_data_op (env : ScriptOutcomes) : OpRun :=
  if env.scraper_exit = 0 then OpRun.succeeded else OpRun.failed

/-- Op `load_raw_to_postgres_op(scrape_success)`: Dagster starts the op only if
its upstream op succeeded; then the exit code of the loader script decides. -/
def load_raw_to_postgres_op (env : ScriptOutcomes) : OpRun → OpRun
  | OpRun.succeeded =>
    if env.loader_exit = 0 then OpRun.succeeded else OpRun.failed
  | _ => OpRun.skipped

/-- Op `run_yolo_enrichment_op(dbt_success)`: same gating on its upstream op. -/
def run_yolo_enrichment_op (env : ScriptOutcomes) : OpRun → OpRun
  | OpRun.succeeded =>
    if env.enrichment_exit = 0 then OpRun.succeeded else OpRun.failed
  | _ => OpRun.skipped

/-- Job `full_telegram_etl_job`: the wiring of the job body —
`scrape_result = scrape_telegram_data_op()`,
`load_result = load_raw_to_postgres_op(scrape_result)`,
`run_yolo_enrichment_op(load_result)`.  The dbt assets (`my_dbt_assets`,
the Transform stage) are defined in the module but not invoked by the job,
so the transform stage never runs in this job. -/
def full_telegram_etl_job (env : ScriptOutcomes) : Stage → OpRun :=
  let scrape_result := scrape_telegram_data_op env
  let load_result := load_raw_to_postgres_op env scrape_result
  let enrich_result := run_yolo_enrichment_op env load_result
  fun s =>
    match s with
    | Stage.scraper => scrape_result
    | Stage.loader => load_result
    | Stage.enrichment => enrich_result
    | Stage.transform => OpRun.skipped

/-- Whether the script of a stage was actually invoked in a run of the job. -/
def stageRan (env : ScriptOutcomes) (s : Stage) : Bool :=
  match full_telegram_etl_job env s with
  | OpRun.skipped => false
  | _ => true

end MessyChats

namespace MessyChats

/-! ### Helper lemmas about the transaction model -/

theorem insertIfAbsent_fst_committed {ρ κ : Type} [DecidableEq κ]
    (key : ρ → κ) (st : TxState ρ) (r : ρ) :
    ((insertIfAbsent key st r).1).committed = st.committed := by
  unfold insertIfAbsent
  split <;> rfl

theorem insertIfAbsent_of_mem {ρ κ : Type} [DecidableEq κ]
    (key : ρ → κ) (st : TxState ρ) (r : ρ)
    (h : key r ∈ (txRows st).map key) :
    insertIfAbsent key st r = (st, false) := by
  unfold insertIfAbsent
  simp [h]

theorem insertIfAbsent_of_not_mem {ρ κ : Type} [DecidableEq κ]
    (key : ρ → κ) (st : TxState ρ) (r : ρ)
    (h : key r ∉ (txRows st).map key) :
    insertIfAbsent key st r = ({ st with pending := st.pending ++ [r] }, true) := by
  unfold insertIfAbsent
  simp [h]

theorem txRows_append_single {ρ : Type} (st : TxState ρ) (r : ρ) :
    txRows { st with pending := st.pending ++ [r] } = txRows st ++ [r] := by
  simp [txRows]

/-! ### Helper lemmas: one step of the loader walk -/

theorem process_file_committed (s : LoaderState) (f : SrcFile) :
    (process_file s f).tx.committed = s.tx.committed := by
  unfold process_file
  split
  · split
    · rfl
    · split
      · rfl
      · split
        · exact insertIfAbsent_fst_committed _ _ _
        · exact insertIfAbsent_fst_committed _ _ _
  · rfl

theorem process_file_not_loadable (s : LoaderState) (f : SrcFile)
    (h : isLoadableFile f = false) :
    (process_file s f).tx = s.tx ∧
      (process_file s f).loaded_count = s.loaded_count ∧
      (process_file s f).skipped_count = s.skipped_count := by
  rcases f with ⟨p, n, c⟩
  cases c with
  | malformed =>
    unfold process_file
    split
    · simp
    · simp
  | json mid ch payload =>
    unfold isLoadableFile at h
    unfold process_file
    by_cases hjson : strEndsWith n ".json" = true
    · simp only [hjson, Bool.true_and] at h
      simp only [decide_eq_false_iff_not, Decidable.not_not] at h
      simp [hjson, h]
    · simp only [Bool.not_eq_true] at hjson
      simp [hjson]

theorem process_file_skip (s : LoaderState) (f : SrcFile)
    (hl : isLoadableFile f = true) (hmem : f.path ∈ txPaths s.tx) :
    process_file s f = { s with skipped_count := s.skipped_count + 1 } := by
  rcases f with ⟨p, n, c⟩
  cases c with
  | malformed => simp [isLoadableFile] at hl
  | json mid ch payload =>
    unfold isLoadableFile at hl
    rw [Bool.and_eq_true] at hl
    obtain ⟨h1, h2⟩ := hl
    simp only [decide_eq_true_eq] at h2
    unfold process_file
    rw [if_pos h1]
    simp only []
    rw [if_neg h2]
    rw [insertIfAbsent_of_mem RawMessage.file_path s.tx ⟨mid.getD 0, ch, payload, p⟩ hmem]
    simp

theorem process_file_insert (s : LoaderState) (f : SrcFile)
    (hl : isLoadableFile f = true) (hmem : f.path ∉ txPaths s.tx) :
    ∃ row : RawMessage, row.file_path = f.path ∧
      process_file s f =
        { s with tx := { s.tx with pending := s.tx.pending ++ [row] },
                 loaded_count := s.loaded_count + 1 } := by
  rcases f with ⟨p, n, c⟩
  cases c with
  | malformed => simp [isLoadableFile] at hl
  | json mid ch payload =>
    unfold isLoadableFile at hl
    rw [Bool.and_eq_true] at hl
    obtain ⟨h1, h2⟩ := hl
    simp only [decide_eq_true_eq] at h2
    refine ⟨⟨mid.getD 0, ch, payload, p⟩, rfl, ?_⟩
    unfold process_file
    rw [if_pos h1]
    simp only []
    rw [if_neg h2]
    rw [insertIfAbsent_of_not_mem RawMessage.file_path s.tx ⟨mid.getD 0, ch, payload, p⟩ hmem]
    simp

theorem process_file_errors_length (s : LoaderState) (f : SrcFile) :
    (process_file s f).errors.length =
      s.errors.length + (if isMalformedJsonFile f = true then 1 else 0) := by
  rcases f with ⟨p, n, c⟩
  cases c with
  | malformed =>
    by_cases hjson : strEndsWith n ".json" = true <;>
      simp [process_file, isMalformedJsonFile, hjson]
  | json mid ch payload =>
    by_cases hjson : strEndsWith n ".json" = true
    · by_cases hz : mid.getD 0 = 0
      · simp [process_file, isMalformedJsonFile, hjson, hz]
      · simp only [process_file, isMalformedJsonFile, hjson, hz, if_true, if_false]
        split <;> simp
    · simp [process_file, isMalformedJsonFile, hjson]

theorem process_file_counts (s : LoaderState) (f : SrcFile) :
    (process_file s f).loaded_count + (process_file s f).skipped_count =
      s.loaded_count + s.skipped_count + (if isLoadableFile f = true then 1 else 0) := by
  by_cases hl : isLoadableFile f = true
  · rw [if_pos hl]
    by_cases hmem : f.path ∈ txPaths s.tx
    · rw [process_file_skip s f hl hmem]
      show s.loaded_count + (s.skipped_count + 1) = s.loaded_count + s.skipped_count + 1
      omega
    · obtain ⟨row, hrow, heq⟩ := process_file_insert s f hl hmem
      rw [heq]
      show s.loaded_count + 1 + s.skipped_count = s.loaded_count + s.skipped_count + 1
      omega
  · rw [if_neg hl]
    obtain ⟨e1, e2, e3⟩ := process_file_not_loadable s f (by simpa using hl)
    omega

theorem process_file_txPaths_mono (s : LoaderState) (f : SrcFile) (p : String)
    (h : p ∈ txPaths s.tx) : p ∈ txPaths (process_file s f).tx := by
  by_cases hl : isLoadableFile f = true
  · by_cases hmem : f.path ∈ txPaths s.tx
    · rw [process_file_skip s f hl hmem]
      exact h
    · obtain ⟨row, hrow, heq⟩ := process_file_insert s f hl hmem
      rw [heq]
      show p ∈ txPaths { s.tx with pending := s.tx.pending ++ [row] }
      simp only [txPaths, txRows_append_single, List.map_append]
      exact List.mem_append_left _ h
  · rw [(process_file_not_loadable s f (by simpa using hl)).1]
    exact h

theorem process_file_txPaths_self (s : LoaderState) (f : SrcFile)
    (hl : isLoadableFile f = true) : f.path ∈ txPaths (process_file s f).tx := by
  by_cases hmem : f.path ∈ txPaths s.tx
  · rw [process_file_skip s f hl hmem]
    exact hmem
  · obtain ⟨row, hrow, heq⟩ := process_file_insert s f hl hmem
    rw [heq]
    show f.path ∈ txPaths { s.tx with pending := s.tx.pending ++ [row] }
    simp only [txPaths, txRows_append_single, List.map_append]
    refine List.mem_append_right _ ?_
    simp [hrow]

/-! ### Helper lemmas: the whole loader walk -/

theorem foldl_process_file_txPaths_mono (files : List SrcFile) (s : LoaderState)
    (p : String) (h : p ∈ txPaths s.tx) :
    p ∈ txPaths ((files.foldl process_file s).tx) := by
  induction files generalizing s with
  | nil => exact h
  | cons f t ih => exact ih _ (process_file_txPaths_mono s f p h)

theorem foldl_process_file_covers (files : List SrcFile) :
    ∀ (s : LoaderState) (f : SrcFile), f ∈ files → isLoadableFile f = true →
      f.path ∈ txPaths ((files.foldl process_file s).tx) := by
  induction files with
  | nil =>
    intro s f hf
    cases hf
  | cons g t ih =>
    intro s f hf hl
    rcases List.mem_cons.mp hf with rfl | hmem
    · exact foldl_process_file_txPaths_mono t _ f.path (process_file_txPaths_self s f hl)
    · exact ih _ f hmem hl

theorem foldl_process_file_committed (files : List SrcFile) :
    ∀ s : LoaderState,
      ((files.foldl process_file s).tx).committed = s.tx.committed := by
  induction files with
  | nil => intro s; rfl
  | cons g t ih =>
    intro s
    rw [List.foldl_cons, ih (process_file s g), process_file_committed]

theorem foldl_process_file_counts (files : List SrcFile) :
    ∀ s : LoaderState,
      (files.foldl process_file s).loaded_count +
          (files.foldl process_file s).skipped_count =
        s.loaded_count + s.skipped_count + files.countP isLoadableFile := by
  induction files with
  | nil => intro s; simp
  | cons g t ih =>
    intro s
    rw [List.foldl_cons, ih (process_file s g), List.countP_cons]
    have h := process_file_counts s g
    by_cases hl : isLoadableFile g = true <;> simp [hl] at h ⊢ <;> omega

theorem foldl_process_file_all_present (files : List SrcFile) :
    ∀ s : LoaderState,
      (∀ f ∈ files, isLoadableFile f = true → f.path ∈ txPaths s.tx) →
      (files.foldl process_file s).tx = s.tx ∧
        (files.foldl process_file s).loaded_count = s.loaded_count ∧
        (files.foldl process_file s).skipped_count =
          s.skipped_count + files.countP isLoadableFile := by
  induction files with
  | nil =>
    intro s _
    simp
  | cons g t ih =>
    intro s h
    rw [List.foldl_cons, List.countP_cons]
    by_cases hl : isLoadableFile g = true
    · have hmem : g.path ∈ txPaths s.tx := h g (List.mem_cons_self g t) hl
      rw [process_file_skip s g hl hmem]
      have ht : ∀ f ∈ t, isLoadableFile f = true →
          f.path ∈ txPaths ({ s with skipped_count := s.skipped_count + 1 } : LoaderState).tx := by
        intro f hf hlf
        exact h f (List.mem_cons_of_mem _ hf) hlf
      obtain ⟨e1, e2, e3⟩ := ih _ ht
      refine ⟨e1, e2, ?_⟩
      rw [e3]
      simp [hl]
      omega
    · obtain ⟨e1, e2, e3⟩ := process_file_not_loadable s g (by simpa using hl)
      have ht : ∀ f ∈ t, isLoadableFile f = true →
          f.path ∈ txPaths (process_file s g).tx := by
        intro f hf hlf
        rw [e1]
        exact h f (List.mem_cons_of_mem _ hf) hlf
      obtain ⟨d1, d2, d3⟩ := ih _ ht
      refine ⟨d1.trans e1, d2.trans e2, ?_⟩
      rw [d3, e3]
      simp [hl]

theorem not_malformed_of_loadable (f : SrcFile) (hl : isLoadableFile f = true) :
    isMalformedJsonFile f = false := by
  rcases f with ⟨p, n, c⟩
  cases c with
  | malformed => simp [isLoadableFile] at hl
  | json mid ch payload => simp [isMalformedJsonFile]

theorem foldl_process_file_fresh (files : List SrcFile) :
    ∀ s : LoaderState,
      List.Pairwise (fun a b => a.path ≠ b.path) files →
      (∀ f ∈ files, f.path ∉ txPaths s.tx) →
      (files.foldl process_file s).loaded_count =
          s.loaded_count + files.countP isLoadableFile ∧
        (files.foldl process_file s).skipped_count = s.skipped_count ∧
        (txRows (files.foldl process_file s).tx).length =
          (txRows s.tx).length + files.countP isLoadableFile ∧
        (files.foldl process_file s).errors.length =
          s.errors.length + files.countP isMalformedJsonFile := by
  induction files with
  | nil =>
    intro s _ _
    simp
  | cons g t ih =>
    intro s hpw hfresh
    rw [List.foldl_cons, List.countP_cons, List.countP_cons]
    obtain ⟨hg_t, hpw_t⟩ := List.pairwise_cons.mp hpw
    by_cases hl : isLoadableFile g = true
    · have hgm : g.path ∉ txPaths s.tx := hfresh g (List.mem_cons_self g t)
      obtain ⟨row, hrow, heq⟩ := process_file_insert s g hl hgm
      have hnm := not_malformed_of_loadable g hl
      rw [heq]
      have hfresh' : ∀ f ∈ t, f.path ∉
          txPaths ({ s with
            tx := { s.tx with pending := s.tx.pending ++ [row] },
            loaded_count := s.loaded_count + 1 } : LoaderState).tx := by
        intro f hf
        show f.path ∉ txPaths { s.tx with pending := s.tx.pending ++ [row] }
        simp only [txPaths, txRows_append_single, List.map_append]
        intro hmem
        rcases List.mem_append.mp hmem with h1 | h2
        · exact hfresh f (List.mem_cons_of_mem _ hf) h1
        · simp only [List.map_cons, List.map_nil, List.mem_singleton, hrow] at h2
          exact (hg_t f hf) h2.symm
      obtain ⟨e1, e2, e3, e4⟩ := ih _ hpw_t hfresh'
      refine ⟨?_, ?_, ?_, ?_⟩
      · rw [e1]
        simp [hl]
        omega
      · exact e2
      · rw [e3]
        show (txRows { s.tx with pending := s.tx.pending ++ [row] }).length +
            t.countP isLoadableFile = _
        rw [txRows_append_single]
        simp [hl]
        omega
      · rw [e4]
        simp [hnm]
    · obtain ⟨e1, e2, e3⟩ := process_file_not_loadable s g (by simpa using hl)
      have hfresh' : ∀ f ∈ t, f.path ∉ txPaths (process_file s g).tx := by
        intro f hf
        rw [e1]
        exact hfresh f (List.mem_cons_of_mem _ hf)
      obtain ⟨d1, d2, d3, d4⟩ := ih _ hpw_t hfresh'
      have herr := process_file_errors_length s g
      refine ⟨?_, ?_, ?_, ?_⟩
      · rw [d1, e2]
        simp [hl]
      · rw [d2, e3]
      · rw [d3, e1]
        simp [hl]
      · rw [d4, herr]
        by_cases hm : isMalformedJsonFile g = true <;> simp [hm]
        omega

theorem countP_split {α : Type} (p : α → Bool) (l : List α) :
    l.length = l.countP p + l.countP (fun a => !p a) := by
  induction l with
  | nil => rfl
  | cons a t ih =>
    rw [List.length_cons, List.countP_cons, List.countP_cons, ih]
    cases hp : p a <;> simp [hp] <;> omega

theorem countP_congr_mem {α : Type} (p q : α → Bool) (l : List α)
    (h : ∀ x ∈ l, p x = q x) : l.countP p = l.countP q := by
  induction l with
  | nil => rfl
  | cons a t ih =>
    rw [List.countP_cons, List.countP_cons, h a (List.mem_cons_self a t),
      ih (fun x hx => h x (List.mem_cons_of_mem _ hx))]

/-! ### Helper lemmas: nodup paths, lookup stability, enrichment walk -/

theorem process_file_txPaths_nodup (s : LoaderState) (f : SrcFile)
    (h : (txPaths s.tx).Nodup) : (txPaths (process_file s f).tx).Nodup := by
  by_cases hl : isLoadableFile f = true
  · by_cases hmem : f.path ∈ txPaths s.tx
    · rw [process_file_skip s f hl hmem]
      exact h
    · obtain ⟨row, hrow, heq⟩ := process_file_insert s f hl hmem
      rw [heq]
      show (txPaths { s.tx with pending := s.tx.pending ++ [row] }).Nodup
      simp only [txPaths, txRows_append_single, List.map_append, List.map_cons,
        List.map_nil]
      rw [List.nodup_append]
      refine ⟨h, by simp, ?_⟩
      intro a ha hb
      simp only [List.mem_singleton, hrow] at hb
      exact hmem (hb ▸ ha)
  · rw [(process_file_not_loadable s f (by simpa using hl)).1]
    exact h

theorem foldl_process_file_txPaths_nodup (files : List SrcFile) :
    ∀ s : LoaderState, (txPaths s.tx).Nodup →
      (txPaths ((files.foldl process_file s).tx)).Nodup := by
  induction files with
  | nil =>
    intro s h
    exact h
  | cons g t ih =>
    intro s h
    exact ih _ (process_file_txPaths_nodup s g h)

theorem lookupByKey_append_left {ρ κ : Type} [DecidableEq κ] (key : ρ → κ)
    (l1 l2 : List ρ) (k : κ) (r : ρ) (h : lookupByKey key l1 k = some r) :
    lookupByKey key (l1 ++ l2) k = some r := by
  unfold lookupByKey at h ⊢
  induction l1 with
  | nil => simp [List.find?] at h
  | cons a t ih =>
    rw [List.cons_append]
    by_cases hp : (decide (key a = k)) = true
    · simp only [List.find?, hp] at h ⊢
      exact h
    · simp only [Bool.not_eq_true] at hp
      simp only [List.find?, hp] at h ⊢
      exact ih h

theorem insertDets_committed (rows : List DetectionRow) :
    ∀ tx : TxState DetectionRow,
      ((insertDets tx rows).1).committed = tx.committed := by
  induction rows with
  | nil =>
    intro tx
    rfl
  | cons r rest ih =>
    intro tx
    show ((insertDets (insertIfAbsent detKey tx r).1 rest).1).committed = tx.committed
    rw [ih _, insertIfAbsent_fst_committed]

theorem enrichStep_fail_committed (env : String → ImgOutcome) (s : EnrichState)
    (img : ImgFile) (hf : imgAttemptFails img env = true) :
    (enrichStep env s img).tx.committed = s.tx.committed := by
  unfold enrichStep
  by_cases himg : isImageName img.name = true
  · rw [if_pos himg]
    by_cases hmem : img.path ∈ s.processed_images
    · rw [if_pos hmem]
    · rw [if_neg hmem]
      unfold imgAttemptFails at hf
      cases hparse : parseNat (stemOf img.name) with
      | none => rfl
      | some mid =>
        rw [hparse] at hf
        cases henv : env img.path with
        | modelError => rfl
        | insertError dets k =>
          show (rollbackTx (insertDets s.tx ((dets.take k).map (rowOfDet mid img.path))).1).committed =
            s.tx.committed
          show ((insertDets s.tx ((dets.take k).map (rowOfDet mid img.path))).1).committed =
            s.tx.committed
          exact insertDets_committed _ _
        | ok dets =>
          rw [henv] at hf
          simp at hf
  · rw [if_neg himg]

theorem enrichStep_committed_extends (env : String → ImgOutcome)
    (s : EnrichState) (img : ImgFile) :
    ∃ rest, (enrichStep env s img).tx.committed = s.tx.committed ++ rest := by
  unfold enrichStep
  by_cases himg : isImageName img.name = true
  · rw [if_pos himg]
    by_cases hmem : img.path ∈ s.processed_images
    · rw [if_pos hmem]
      exact ⟨[], by simp⟩
    · rw [if_neg hmem]
      cases hparse : parseNat (stemOf img.name) with
      | none => exact ⟨[], by simp [rollbackTx]⟩
      | some mid =>
        cases henv : env img.path with
        | modelError => exact ⟨[], by simp [rollbackTx]⟩
        | insertError dets k =>
          refine ⟨[], ?_⟩
          show (rollbackTx (insertDets s.tx ((dets.take k).map (rowOfDet mid img.path))).1).committed =
            s.tx.committed ++ []
          rw [List.append_nil]
          exact insertDets_committed _ _
        | ok dets =>
          refine ⟨(insertDets s.tx (dets.map (rowOfDet mid img.path))).1.pending, ?_⟩
          show (commitTx (insertDets s.tx (dets.map (rowOfDet mid img.path))).1).committed = _
          unfold commitTx
          rw [insertDets_committed]
  · rw [if_neg himg]
    exact ⟨[], by simp⟩

theorem foldl_enrichStep_committed_extends (images : List ImgFile)
    (env : String → ImgOutcome) :
    ∀ s : EnrichState, ∃ rest,
      ((images.foldl (enrichStep env) s).tx).committed = s.tx.committed ++ rest := by
  induction images with
  | nil =>
    intro s
    exact ⟨[], by simp⟩
  | cons img t ih =>
    intro s
    obtain ⟨r1, h1⟩ := enrichStep_committed_extends env s img
    obtain ⟨r2, h2⟩ := ih (enrichStep env s img)
    exact ⟨r1 ++ r2, by rw [List.foldl_cons, h2, h1, List.append_assoc]⟩

theorem enrichStep_keeps_skip (env : String → ImgOutcome) (s : EnrichState)
    (img : ImgFile) (p : String) (hp : p ∈ s.processed_images)
    (hr : p ∉ s.processed_this_run) :
    p ∈ (enrichStep env s img).processed_images ∧
      p ∉ (enrichStep env s img).processed_this_run := by
  unfold enrichStep
  by_cases himg : isImageName img.name = true
  · rw [if_pos himg]
    by_cases hmem : img.path ∈ s.processed_images
    · rw [if_pos hmem]
      exact ⟨hp, hr⟩
    · rw [if_neg hmem]
      have hne : img.path ≠ p := fun he => hmem (he ▸ hp)
      have hrun : p ∉ s.processed_this_run ++ [img.path] := by
        intro hmem2
        rcases List.mem_append.mp hmem2 with h1 | h2
        · exact hr h1
        · rw [List.mem_singleton] at h2
          exact hne h2.symm
      cases hparse : parseNat (stemOf img.name) with
      | none => exact ⟨hp, hrun⟩
      | some mid =>
        cases henv : env img.path with
        | modelError => exact ⟨hp, hrun⟩
        | insertError dets k => exact ⟨hp, hrun⟩
        | ok dets => exact ⟨List.mem_append_left _ hp, hrun⟩
  · rw [if_neg himg]
    exact ⟨hp, hr⟩

theorem foldl_enrichStep_keeps_skip (images : List ImgFile)
    (env : String → ImgOutcome) :
    ∀ (s : EnrichState) (p : String), p ∈ s.processed_images →
      p ∉ s.processed_this_run →
      p ∉ ((images.foldl (enrichStep env) s).processed_this_run) := by
  induction images with
  | nil =>
    intro s p _ hr
    exact hr
  | cons img t ih =>
    intro s p hp hr
    obtain ⟨hp2, hr2⟩ := enrichStep_keeps_skip env s img p hp hr
    exact ih _ p hp2 hr2

theorem loaderFileActions_insert (f : SrcFile) (a : DbAction RawMessage)
    (ha : a ∈ loaderFileActions f) : isInsertAction a = true := by
  unfold loaderFileActions at ha
  split at ha
  · split at ha
    · cases ha
    · split at ha
      · cases ha
      · rw [List.mem_singleton] at ha
        subst ha
        rfl
  · cases ha

theorem loaderActions_all_inserts (files : List SrcFile) (a : DbAction RawMessage)
    (ha : a ∈ (files.map loaderFileActions).flatten) : isInsertAction a = true := by
  rw [List.mem_flatten] at ha
  obtain ⟨l, hl, hal⟩ := ha
  rw [List.mem_map] at hl
  obtain ⟨f, _, rfl⟩ := hl
  exact loaderFileActions_insert f a hal

theorem commitCount_append {ρ : Type} (l1 l2 : List (DbAction ρ)) :
    commitCount (l1 ++ l2) = commitCount l1 + commitCount l2 := by
  unfold commitCount
  rw [List.countP_append]

theorem commitCount_eq_zero_of_inserts {ρ : Type} (l : List (DbAction ρ))
    (h : ∀ a ∈ l, isInsertAction a = true) : commitCount l = 0 := by
  unfold commitCount
  refine List.countP_eq_zero.mpr ?_
  intro a ha
  have hi := h a ha
  cases a with
  | insert r => simp
  | commit => simp [isInsertAction] at hi
  | rollback => simp [isInsertAction] at hi

theorem applyActions_inserts_committed {ρ κ : Type} [DecidableEq κ]
    (key : ρ → κ) (acts : List (DbAction ρ)) :
    ∀ st : TxState ρ, (∀ a ∈ acts, isInsertAction a = true) →
      (applyActions key st acts).committed = st.committed := by
  induction acts with
  | nil =>
    intro st _
    rfl
  | cons a t ih =>
    intro st h
    have ha := h a (List.mem_cons_self a t)
    cases a with
    | insert r =>
      show (applyActions key (applyAction key st (DbAction.insert r)) t).committed =
        st.committed
      rw [ih _ (fun x hx => h x (List.mem_cons_of_mem _ hx))]
      exact insertIfAbsent_fst_committed key st r
    | commit => simp [isInsertAction] at ha
    | rollback => simp [isInsertAction] at ha

/-! ### Claim theorems -/

/-- C2: running the loader a second time over the unchanged file tree, with
the store state left by the first run, inserts zero additional rows into
`raw.messages`: the loaded count of the second run is 0, the stored table is
unchanged, and every file the first run loaded or skipped is counted as
skipped by the second run. -/
theorem loader_second_run_inserts_nothing (db0 : List RawMessage)
    (files : List SrcFile) :
    (process_and_load_data (process_and_load_data db0 files).db files).loaded_count = 0 ∧
      (process_and_load_data (process_and_load_data db0 files).db files).db =
        (process_and_load_data db0 files).db ∧
      (process_and_load_data (process_and_load_data db0 files).db files).skipped_count =
        (process_and_load_data db0 files).loaded_count +
          (process_and_load_data db0 files).skipped_count := by
  have hdb1 : (process_and_load_data db0 files).db =
      txRows ((files.foldl process_file ⟨⟨db0, []⟩, 0, 0, [], []⟩).tx) := rfl
  have hcover : ∀ f ∈ files, isLoadableFile f = true →
      f.path ∈ txPaths
        ((⟨⟨(process_and_load_data db0 files).db, []⟩, 0, 0, [], []⟩ : LoaderState)).tx := by
    intro f hf hl
    have h := foldl_process_file_covers files ⟨⟨db0, []⟩, 0, 0, [], []⟩ f hf hl
    show f.path ∈ txPaths ⟨(process_and_load_data db0 files).db, []⟩
    rw [hdb1]
    simpa [txPaths, txRows] using h
  obtain ⟨e1, e2, e3⟩ := foldl_process_file_all_present files _ hcover
  have hcounts := foldl_process_file_counts files ⟨⟨db0, []⟩, 0, 0, [], []⟩
  have hl1 : (process_and_load_data db0 files).loaded_count =
      (files.foldl process_file ⟨⟨db0, []⟩, 0, 0, [], []⟩).loaded_count := rfl
  have hs1 : (process_and_load_data db0 files).skipped_count =
      (files.foldl process_file ⟨⟨db0, []⟩, 0, 0, [], []⟩).skipped_count := rfl
  refine ⟨?_, ?_, ?_⟩
  · show (files.foldl process_file
      ⟨⟨(process_and_load_data db0 files).db, []⟩, 0, 0, [], []⟩).loaded_count = 0
    rw [e2]
  · show txRows (files.foldl process_file
      ⟨⟨(process_and_load_data db0 files).db, []⟩, 0, 0, [], []⟩).tx =
        (process_and_load_data db0 files).db
    rw [e1]
    simp [txRows]
  · show (files.foldl process_file
      ⟨⟨(process_and_load_data db0 files).db, []⟩, 0, 0, [], []⟩).skipped_count = _
    rw [e3, hl1, hs1]
    have hc2 : (files.foldl process_file ⟨⟨db0, []⟩, 0, 0, [], []⟩).loaded_count +
        (files.foldl process_file ⟨⟨db0, []⟩, 0, 0, [], []⟩).skipped_count =
          0 + 0 + files.countP isLoadableFile := hcounts
    show 0 + files.countP isLoadableFile = _
    omega

/-- C3: over an empty store, a file tree of `.json` files with exactly one
malformed file and all others loadable with pairwise-distinct paths yields
`N = files.length - 1` inserted rows, zero skips, and exactly one logged
per-item error; the malformed file does not abort the batch. -/
theorem loader_isolates_malformed_file (files : List SrcFile)
    (hjson : ∀ f ∈ files, strEndsWith f.name ".json" = true)
    (hone : files.countP isMalformedContent = 1)
    (hload : ∀ f ∈ files, isMalformedContent f = false → isLoadableFile f = true)
    (hdist : List.Pairwise (fun a b => a.path ≠ b.path) files) :
    (process_and_load_data [] files).loaded_count = files.length - 1 ∧
      (process_and_load_data [] files).skipped_count = 0 ∧
      (process_and_load_data [] files).db.length = files.length - 1 ∧
      (process_and_load_data [] files).errors.length = 1 := by
  have hfresh : ∀ f ∈ files, f.path ∉
      txPaths ((⟨⟨[], []⟩, 0, 0, [], []⟩ : LoaderState)).tx := by
    intro f _
    simp [txPaths, txRows]
  obtain ⟨e1, e2, e3, e4⟩ := foldl_process_file_fresh files _ hdist hfresh
  have hcompl : ∀ f ∈ files, isLoadableFile f = (!isMalformedContent f) := by
    intro f hf
    cases hm : isMalformedContent f
    · rw [hload f hf hm]
      rfl
    · rcases f with ⟨p, n, c⟩
      cases c with
      | malformed => simp [isLoadableFile]
      | json mid ch payload => simp [isMalformedContent] at hm
  have hcl : files.countP isLoadableFile =
      files.countP (fun f => !isMalformedContent f) :=
    countP_congr_mem _ _ _ hcompl
  have hsplit := countP_split isMalformedContent files
  have hmj : files.countP isMalformedJsonFile = files.countP isMalformedContent := by
    refine countP_congr_mem _ _ _ ?_
    intro f hf
    unfold isMalformedJsonFile
    rw [hjson f hf]
    cases hc : f.content <;> simp [isMalformedContent, hc]
  have hn : files.countP isLoadableFile = files.length - 1 := by
    rw [hcl]
    omega
  refine ⟨?_, ?_, ?_, ?_⟩
  · show (files.foldl process_file ⟨⟨[], []⟩, 0, 0, [], []⟩).loaded_count = _
    have e1a : (files.foldl process_file ⟨⟨[], []⟩, 0, 0, [], []⟩).loaded_count =
        0 + files.countP isLoadableFile := e1
    rw [e1a, hn]
    omega
  · show (files.foldl process_file ⟨⟨[], []⟩, 0, 0, [], []⟩).skipped_count = 0
    have e2a : (files.foldl process_file ⟨⟨[], []⟩, 0, 0, [], []⟩).skipped_count =
        (0 : Nat) := e2
    exact e2a
  · show (txRows (files.foldl process_file ⟨⟨[], []⟩, 0, 0, [], []⟩).tx).length = _
    have e3a : (txRows (files.foldl process_file ⟨⟨[], []⟩, 0, 0, [], []⟩).tx).length =
        0 + files.countP isLoadableFile := e3
    rw [e3a, hn]
    omega
  · show (files.foldl process_file ⟨⟨[], []⟩, 0, 0, [], []⟩).errors.length = 1
    have e4a : (files.foldl process_file ⟨⟨[], []⟩, 0, 0, [], []⟩).errors.length =
        0 + files.countP isMalformedJsonFile := e4
    rw [e4a, hmj, hone]

/-- C1 counterexample: an enrichment item processed in an earlier run IS
processed again in a later run when its model run stored no detection rows.
With one zero-detection image and an unchanged tree and store, both the
first and the second invocation of `run_enrichment` invoke the model on the
same image, refuting at-most-once processing across invocations. -/
theorem enrichment_reprocesses_zero_detection_image :
    "./data/raw/images/1.jpg" ∈
        (run_enrichment [] [⟨"./data/raw/images/1.jpg", "1.jpg"⟩]
          (fun _ => ImgOutcome.ok [])).processed_this_run ∧
      "./data/raw/images/1.jpg" ∈
        (run_enrichment
          (run_enrichment [] [⟨"./data/raw/images/1.jpg", "1.jpg"⟩]
            (fun _ => ImgOutcome.ok [])).committed
          [⟨"./data/raw/images/1.jpg", "1.jpg"⟩]
          (fun _ => ImgOutcome.ok [])).processed_this_run := by
  decide

/-- C1 (amended): at-most-once holds at the level of stored rows, and for
enrichment items that stored at least one row: the loader store never
holds two rows for one file path (a re-seen item is skipped, not
re-inserted), and an image with a stored detection row is not re-processed
(the model is not invoked on it) by a later run.  An image whose earlier
processing stored no rows is re-processed, per the counterexample. -/
theorem ingestion_at_most_once_amended :
    (∀ (db0 : List RawMessage) (files : List SrcFile),
        ((db0.map RawMessage.file_path).Nodup) →
        (((process_and_load_data db0 files).db.map RawMessage.file_path).Nodup)) ∧
      (∀ (db0 : List DetectionRow) (images : List ImgFile)
          (env : String → ImgOutcome) (p : String),
          p ∈ get_processed_images db0 →
          p ∉ (run_enrichment db0 images env).processed_this_run) := by
  constructor
  · intro db0 files h
    have h0 : (txPaths ((⟨⟨db0, []⟩, 0, 0, [], []⟩ : LoaderState)).tx).Nodup := by
      simpa [txPaths, txRows] using h
    show (txPaths ((files.foldl process_file ⟨⟨db0, []⟩, 0, 0, [], []⟩).tx)).Nodup
    exact foldl_process_file_txPaths_nodup files _ h0
  · intro db0 images env p hp
    have hempty : p ∉ ([] : List String) := by simp
    exact foldl_enrichStep_keeps_skip images env
      ⟨⟨db0, []⟩, get_processed_images db0, 0, [], []⟩ p hp hempty

/-- C1 amended witness: a store holding one row keeps a duplicate-free path
set after re-loading the same file, and an image with a stored detection row
is not re-processed. -/
theorem ingestion_at_most_once_amended_witness :
    (((process_and_load_data [⟨1, none, "x", "d/a.json"⟩]
        [⟨"d/a.json", "a.json", FileContent.json (some 1) none "x"⟩]).db.map
          RawMessage.file_path).Nodup) ∧
      "p.jpg" ∉ (run_enrichment [⟨1, "p.jpg", "cat", "0.9", "[0]"⟩]
        [⟨"p.jpg", "p.jpg"⟩] (fun _ => ImgOutcome.ok [])).processed_this_run := by
  constructor
  · exact ingestion_at_most_once_amended.1 _ _ (by decide)
  · exact ingestion_at_most_once_amended.2 _ _ _ _ (by decide)

/-- C8: rows already present in the store are never updated or deleted: the
row found for a file path before a loader run is found unchanged after it —
even when the files of that run carry different content under the same path — and
likewise the row found for a detection key before an enrichment run. -/
theorem stored_rows_immutable :
    (∀ (db0 : List RawMessage) (files : List SrcFile) (k : String) (r : RawMessage),
        lookupByKey RawMessage.file_path db0 k = some r →
        lookupByKey RawMessage.file_path (process_and_load_data db0 files).db k = some r) ∧
      (∀ (db0 : List DetectionRow) (images : List ImgFile)
          (env : String → ImgOutcome) (k : String × String × String) (r : DetectionRow),
          lookupByKey detKey db0 k = some r →
          lookupByKey detKey (run_enrichment db0 images env).committed k = some r) := by
  constructor
  · intro db0 files k r h
    have hdb : (process_and_load_data db0 files).db =
        db0 ++ (files.foldl process_file ⟨⟨db0, []⟩, 0, 0, [], []⟩).tx.pending := by
      show txRows (files.foldl process_file ⟨⟨db0, []⟩, 0, 0, [], []⟩).tx = _
      unfold txRows
      rw [foldl_process_file_committed]
    rw [hdb]
    exact lookupByKey_append_left _ _ _ _ _ h
  · intro db0 images env k r h
    obtain ⟨rest, hrest⟩ := foldl_enrichStep_committed_extends images env
      ⟨⟨db0, []⟩, get_processed_images db0, 0, [], []⟩
    show lookupByKey detKey
      ((images.foldl (enrichStep env)
        ⟨⟨db0, []⟩, get_processed_images db0, 0, [], []⟩).tx).committed k = some r
    rw [hrest]
    exact lookupByKey_append_left _ _ _ _ _ h

/-- C8 witness: a loader run over a file with changed content under an
already-loaded path leaves the old row in place, and an enrichment run over
an already-processed image leaves its detection row in place. -/
theorem stored_rows_immutable_witness :
    lookupByKey RawMessage.file_path
        (process_and_load_data [⟨1, some 5, "old", "d/a.json"⟩]
          [⟨"d/a.json", "a.json", FileContent.json (some 2) none "new"⟩]).db
        "d/a.json" = some ⟨1, some 5, "old", "d/a.json"⟩ ∧
      lookupByKey detKey
        (run_enrichment [⟨1, "p.jpg", "cat", "0.9", "[0]"⟩]
          [⟨"p.jpg", "p.jpg"⟩] (fun _ => ImgOutcome.ok [⟨"cat", "0.8", "[0]"⟩])).committed
        ("p.jpg", "cat", "[0]") = some ⟨1, "p.jpg", "cat", "0.9", "[0]"⟩ := by
  constructor
  · exact stored_rows_immutable.1 _ _ _ _ (by decide)
  · exact stored_rows_immutable.2 _ _ _ _ _ (by decide)

/-- C3 witness: a concrete tree of two loadable files and one malformed file
loads both loadable files and logs exactly one error. -/
theorem loader_isolates_malformed_file_witness :
    (process_and_load_data []
      [⟨"d/a.json", "a.json", FileContent.json (some 1) none "p"⟩,
       ⟨"d/b.json", "b.json", FileContent.malformed⟩,
       ⟨"d/c.json", "c.json", FileContent.json (some 2) (some 7) "q"⟩]).loaded_count = 3 - 1 ∧
      (process_and_load_data []
        [⟨"d/a.json", "a.json", FileContent.json (some 1) none "p"⟩,
         ⟨"d/b.json", "b.json", FileContent.malformed⟩,
         ⟨"d/c.json", "c.json", FileContent.json (some 2) (some 7) "q"⟩]).skipped_count = 0 ∧
      (process_and_load_data []
        [⟨"d/a.json", "a.json", FileContent.json (some 1) none "p"⟩,
         ⟨"d/b.json", "b.json", FileContent.malformed⟩,
         ⟨"d/c.json", "c.json", FileContent.json (some 2) (some 7) "q"⟩]).db.length = 3 - 1 ∧
      (process_and_load_data []
        [⟨"d/a.json", "a.json", FileContent.json (some 1) none "p"⟩,
         ⟨"d/b.json", "b.json", FileContent.malformed⟩,
         ⟨"d/c.json", "c.json", FileContent.json (some 2) (some 7) "q"⟩]).errors.length = 1 := by
  exact loader_isolates_malformed_file _ (by decide) (by decide) (by decide) (by decide)

/-- C9: on a per-item exception the enrichment step leaves the committed
table unchanged — the rollback discards any partial inserts of that image —
while the loader statement sequence contains no per-item commit, exactly
one commit overall (as the final statement of the walk), and interrupting
the loader anywhere before that final commit leaves the committed table
exactly as it was. -/
theorem per_item_failure_transactions :
    (∀ (env : String → ImgOutcome) (s : EnrichState) (img : ImgFile),
        imgAttemptFails img env = true →
        (enrichStep env s img).tx.committed = s.tx.committed) ∧
      (∀ f : SrcFile, commitCount (loaderFileActions f) = 0) ∧
      (∀ files : List SrcFile, commitCount (loaderActions files) = 1 ∧
        (loaderActions files).getLast? = some DbAction.commit) ∧
      (∀ (db0 : List RawMessage) (files : List SrcFile) (n : Nat),
        n < (loaderActions files).length →
        (applyActions RawMessage.file_path ⟨db0, []⟩
          ((loaderActions files).take n)).committed = db0) := by
  refine ⟨?_, ?_, ?_, ?_⟩
  · exact enrichStep_fail_committed
  · intro f
    unfold commitCount loaderFileActions
    split
    · split
      · rfl
      · split
        · rfl
        · rfl
    · rfl
  · intro files
    constructor
    · unfold loaderActions
      rw [commitCount_append,
        commitCount_eq_zero_of_inserts _ (loaderActions_all_inserts files)]
      rfl
    · unfold loaderActions
      exact List.getLast?_concat _
  · intro db0 files n hn
    unfold loaderActions at hn ⊢
    rw [List.length_append, List.length_singleton] at hn
    rw [List.take_append_of_le_length (by omega)]
    refine applyActions_inserts_committed _ _ _ ?_
    intro a ha
    exact loaderActions_all_inserts files a (List.mem_of_mem_take ha)

/-- C9 witness: a failing image item leaves the committed table unchanged; a
concrete loadable file emits no per-item commit; the one-file walk has a
statement list has exactly one commit, at the end; and cutting the walk
before the final commit commits nothing. -/
theorem per_item_failure_transactions_witness :
    (enrichStep (fun _ => ImgOutcome.modelError) ⟨⟨[], []⟩, [], 0, [], []⟩
        ⟨"d/9.jpg", "9.jpg"⟩).tx.committed =
        ((⟨⟨[], []⟩, [], 0, [], []⟩ : EnrichState)).tx.committed ∧
      commitCount (loaderFileActions
        ⟨"d/a.json", "a.json", FileContent.json (some 1) none "p"⟩) = 0 ∧
      commitCount (loaderActions
        [⟨"d/a.json", "a.json", FileContent.json (some 1) none "p"⟩]) = 1 ∧
      (applyActions RawMessage.file_path ⟨[], []⟩
        ((loaderActions
          [⟨"d/a.json", "a.json", FileContent.json (some 1) none "p"⟩]).take 1)).committed =
        [] := by
  refine ⟨?_, ?_, ?_, ?_⟩
  · exact per_item_failure_transactions.1 _ _ _ (by decide)
  · exact per_item_failure_transactions.2.1 _
  · exact (per_item_failure_transactions.2.2.1 _).1
  · exact per_item_failure_transactions.2.2.2 _ _ 1 (by decide)

/-- C4: every entry of the top-products report is a token longer than 3
characters and outside the stopword list — the tokens compared are the
lowercased words, so the exclusion is case-insensitive — its count is the
frequency of the token among the kept words, and the report is sorted by
descending count. -/
theorem top_products_filtering_and_order (msgs : List (Option String))
    (limit : Nat) :
    (∀ p ∈ get_top_products msgs limit,
        3 < p.1.length ∧ p.1 ∉ stopwords ∧
          p.2 = ((wordsOf msgs).filter keepWord).count p.1) ∧
      List.Sorted byCountDesc (get_top_products msgs limit) := by
  constructor
  · intro p hp
    have hp2 : p ∈ List.insertionSort byCountDesc
        (((wordsOf msgs).filter keepWord).dedup.map
          (fun w => (w, ((wordsOf msgs).filter keepWord).count w))) :=
      List.mem_of_mem_take hp
    have hp3 := (List.perm_insertionSort byCountDesc _).mem_iff.mp hp2
    rw [List.mem_map] at hp3
    obtain ⟨w, hw, rfl⟩ := hp3
    rw [List.mem_dedup] at hw
    have hk : keepWord w = true := List.of_mem_filter hw
    unfold keepWord at hk
    rw [Bool.and_eq_true, decide_eq_true_eq, decide_eq_true_eq] at hk
    exact ⟨hk.1, hk.2, rfl⟩
  · exact List.Pairwise.sublist (List.take_sublist _ _)
      (List.sorted_insertionSort byCountDesc _)

/-- C4 witness: over a concrete message set, the reported entry for the
token that survives the filters satisfies the length bound, the stopword
exclusion and the count law. -/
theorem top_products_filtering_and_order_witness :
    3 < ("alpha" : String).length ∧ ("alpha" : String) ∉ stopwords ∧
      (2 : Nat) =
        ((wordsOf [some "alpha ALPHA the with xy", none]).filter keepWord).count "alpha" := by
  exact (top_products_filtering_and_order [some "alpha ALPHA the with xy", none] 10).1
    ("alpha", 2) (by decide)

/-- C5: requesting activity for a channel name absent from the channel
dimension table returns a 404 error whose message echoes the requested
channel name, rather than an empty report or another status. -/
theorem channel_activity_404_on_missing (channels : List (String × Nat))
    (db : List FctMessage) (channel_name : String)
    (h : ∀ r ∈ channels, r.1 ≠ channel_name) :
    get_channel_activity_report channels db channel_name =
      Except.error ⟨404, "Channel \x27" ++ channel_name ++ "\x27 not found."⟩ := by
  unfold get_channel_activity_report get_channel_id_by_name
  have hf : channels.find? (fun r => decide (r.1 = channel_name)) = none := by
    rw [List.find?_eq_none]
    intro x hx
    simp [h x hx]
  rw [hf]
  rfl

/-- C5 witness: a concrete missing channel name yields the 404 with the
name echoed in the message. -/
theorem channel_activity_404_on_missing_witness :
    get_channel_activity_report [("chan", 5)] [] "nochan" =
      Except.error ⟨404, "Channel \x27nochan\x27 not found."⟩ := by
  exact channel_activity_404_on_missing _ _ _ (by decide)

/-- C6 counterexample: the message-search endpoint handler declares no
`limit` parameter, refuting the claim that every reporting query of the
HTTP API accepts one (in particular that search does). -/
theorem search_endpoint_has_no_limit_param :
    "limit" ∉ search_for_messages_params.map EndpointParam.param := by
  decide

/-- C6 (amended): the top-products and top-detected-objects endpoints accept
a numeric `limit` with a default; the search endpoint accepts only `query`
and always invokes the crud search with its fixed default limit of 100; the
channel-activity endpoint takes only the channel name. -/
theorem endpoint_limit_params_amended :
    (⟨"limit", true⟩ : EndpointParam) ∈ get_top_products_report_params ∧
      (⟨"limit", true⟩ : EndpointParam) ∈ get_top_objects_report_params ∧
      "limit" ∉ search_for_messages_params.map EndpointParam.param ∧
      "limit" ∉ get_channel_activity_report_params.map EndpointParam.param ∧
      ∀ (db : List FctMessage) (q : String),
        search_for_messages db q = search_messages db q 100 := by
  refine ⟨by decide, by decide, by decide, by decide, ?_⟩
  intro db q
  rfl

/-- C7 counterexample: with every script succeeding, a run of the job
invokes the enrichment stage although the transform stage never ran at all
(the dbt assets are not wired into `full_telegram_etl_job`), refuting the
four-stage sequencing and that enrichment only runs after a successful
transform. -/
theorem enrichment_runs_without_transform :
    stageRan ⟨0, 0, 0, 0⟩ Stage.enrichment = true ∧
      stageRan ⟨0, 0, 0, 0⟩ Stage.transform = false := by
  decide

/-- C7 (amended): the job wires three stages Scraper → Loader → Enrichment
with hard sequential gating — the scraper always starts, the loader runs iff
the scraper script exited 0, and enrichment runs iff both the scraper and
the loader exited 0 (regardless of the dbt outcome) — while the transform
stage, though defined as dbt assets, is never invoked by the job. -/
theorem job_gating_amended (env : ScriptOutcomes) :
    stageRan env Stage.scraper = true ∧
      stageRan env Stage.loader = decide (env.scraper_exit = 0) ∧
      stageRan env Stage.enrichment =
        (decide (env.scraper_exit = 0) && decide (env.loader_exit = 0)) ∧
      stageRan env Stage.transform = false := by
  unfold stageRan full_telegram_etl_job scrape_telegram_data_op
    load_raw_to_postgres_op run_yolo_enrichment_op
  by_cases h1 : env.scraper_exit = 0 <;> by_cases h2 : env.loader_exit = 0 <;>
    by_cases h3 : env.enrichment_exit = 0 <;> simp [h1, h2, h3]

/-- C10: the search endpoint always calls the crud search with the fixed
default limit of 100, exposes no `limit` parameter to the caller, and hence
returns at most 100 rows for every query. -/
theorem search_endpoint_capped_at_100 (db : List FctMessage) (query : String) :
    search_for_messages db query = search_messages db query 100 ∧
      (search_for_messages db query).length ≤ 100 ∧
      "limit" ∉ search_for_messages_params.map EndpointParam.param := by
  refine ⟨rfl, ?_, by decide⟩
  unfold search_for_messages search_messages
  exact List.length_take_le _ _

end MessyChats
